import Mathlib

/-!
Shallow embedding of the ESLint flat-config composition pipeline of this
repository.  The repository itself contains one logic-bearing file,
`eslint.config.js`, whose default export is a literal ordered sequence of
configuration fragments (some spliced in from plugin-provided fragment
arrays).  The composer (the flattening of that sequence), the plugin
reference check, and the linting engine's per-file merge semantics are
performed by the external linting engine; they are modelled here from the
specification.  The concrete configuration value mirrors
`src/eslint.config.js` field by field.
-/

namespace EslintConfig

/-- Severity of a rule: the three levels the configuration language admits. -/
inductive Severity where
  | off
  | warn
  | error
deriving DecidableEq, Repr

/-- Parser binding and parser options of a fragment, as in the
`languageOptions` key of `eslint.config.js` (parser identity plus
`ecmaVersion` and `sourceType`). -/
structure LanguageOptions where
  parser : String
  ecmaVersion : String
  sourceType : String
deriving DecidableEq, Repr

/-- One unit of configuration, as in the spec's data model: optional
`files` glob set, optional `ignores` glob set, optional `languageOptions`,
a `plugins` mapping (modelled by its list of keys, the plugin names) and a
`rules` mapping from rule name to severity (an ordered association list;
later entries for the same key override earlier ones, as in a JS object
literal). -/
structure ConfigFragment where
  files : Option (List String) := none
  ignores : Option (List String) := none
  languageOptions : Option LanguageOptions := none
  plugins : List String := []
  rules : List (String × Severity) := []
deriving DecidableEq, Repr

/-- One element of the literal sequence in `eslint.config.js`: either a
single fragment object, or a plugin-provided array of fragments spread
in place (such as `...astro.configs.recommended`). -/
inductive ConfigItem where
  | frag : ConfigFragment → ConfigItem
  | arr : List ConfigFragment → ConfigItem
deriving DecidableEq, Repr

/-- The fragments contributed by one item of the input sequence. -/
def itemFrags : ConfigItem → List ConfigFragment
  | .frag f => [f]
  | .arr fs => fs

/-- Modelled from the spec: the flattening step of `compose` — nested
arrays are flattened one level, preserving relative order (spec section 4.1,
output clause). -/
def flattenItems : List ConfigItem → List ConfigFragment
  | [] => []
  | .frag f :: rest => f :: flattenItems rest
  | .arr fs :: rest => fs ++ flattenItems rest

/-- The order of fragments as encountered by a left-to-right, depth-first
flatten of the input, written after the spec's words in section 8
(order preservation).  Used to compare with the composer's output. -/
def dfsOrder (items : List ConfigItem) : List ConfigFragment :=
  items.foldr (fun it acc => itemFrags it ++ acc) []

/-- Left brace character, by code point. -/
def lbrace : Char := Char.ofNat 123

/-- Right brace character, by code point. -/
def rbrace : Char := Char.ofNat 125

/-- Split a character list at every occurrence of the separator. -/
def splitOnChar (c : Char) : List Char → List (List Char)
  | [] => [[]]
  | x :: xs =>
    match splitOnChar c xs with
    | [] => [[]]
    | y :: ys => if x = c then [] :: y :: ys else (x :: y) :: ys

/-- Modelled from the spec: brace expansion for the glob pattern forms the
configuration uses — a single alternation group, as in
`**/*.\x7bjs,mjs,cjs,ts,jsx,tsx\x7d`, expands to one pattern per
alternative. -/
def expandBraces (pat : List Char) : List (List Char) :=
  match splitOnChar lbrace pat with
  | [pre, rest] =>
    match splitOnChar rbrace rest with
    | [mid, post] => (splitOnChar ',' mid).map (fun alt => pre ++ alt ++ post)
    | _ => [pat]
  | _ => [pat]

/-- Modelled from the spec: matching of one brace-free glob pattern against
a file path, for the pattern forms the configuration uses.  A pattern
ending in a slash is a directory scope and matches every path under that
directory; a pattern of the form `**/*.ext` matches every path ending in
`.ext`; any other pattern matches only itself. -/
def matchesOne (pat path : List Char) : Bool :=
  if List.isSuffixOf ['/'] pat then List.isPrefixOf pat path
  else if List.isPrefixOf ['*', '*', '/', '*'] pat then
    List.isSuffixOf (pat.drop 4) path
  else pat == path

/-- Modelled from the spec: glob matching of a pattern string against a
file path string, with brace expansion. -/
def matchesGlob (pat path : String) : Bool :=
  (expandBraces pat.data).any (fun p => matchesOne p path.data)

/-- The plugin namespace a rule name references: the part before the first
slash when there is one (`astro/no-conflict-set-directives` references
plugin `astro`), none for a core rule name such as `no-unused-vars`. -/
def pluginOf (r : String) : Option String :=
  match splitOnChar '/' r.data with
  | p :: _ :: _ => some (String.mk p)
  | _ => none

/-- Modelled from the spec: the error raised when composition fails —
reported with the fragment index and the offending key (spec section 7). -/
structure ConfigurationError where
  fragmentIndex : Nat
  offendingKey : String
deriving DecidableEq, Repr

/-- A rule entry whose namespace is not among the plugin names declared so
far. -/
def badRule (declared : List String) (e : String × Severity) : Bool :=
  match pluginOf e.1 with
  | some p => !(declared.contains p)
  | none => false

/-- Auxiliary scan for `checkPlan`: walks the flat plan carrying the plugin
names declared so far and the current fragment index. -/
def checkPlanAux (declared : List String) (i : Nat) :
    List ConfigFragment → Option ConfigurationError
  | [] => none
  | fr :: rest =>
    match fr.rules.find? (badRule (declared ++ fr.plugins)) with
    | some e => some ⟨i, e.1⟩
    | none => checkPlanAux (declared ++ fr.plugins) (i + 1) rest

/-- Modelled from the spec: the failure condition of `compose` — a named
plugin referenced in some fragment's `rules` must be present in a `plugins`
map earlier in, or at, the same fragment (spec section 4.1, failure
conditions). -/
def checkPlan (plan : List ConfigFragment) : Option ConfigurationError :=
  checkPlanAux [] 0 plan

/-- Modelled from the spec: `compose` — flatten the fragment sequence one
level preserving order, check plugin references, and either surface a
`ConfigurationError` to the caller or return the flat evaluation plan
(spec section 4.1). -/
def compose (items : List ConfigItem) :
    Except ConfigurationError (List ConfigFragment) :=
  match checkPlan (flattenItems items) with
  | some e => Except.error e
  | none => Except.ok (flattenItems items)

/-- The value of a rule inside one fragment's `rules` map: the last binding
for that name wins, as in a JS object literal. -/
def lookupRule (fr : ConfigFragment) (r : String) : Option Severity :=
  fr.rules.foldl (fun acc e => if e.1 == r then some e.2 else acc) none

/-- Modelled from the spec: whether a fragment's scope includes a file —
a fragment with no `files` key applies to all files, otherwise some `files`
pattern must match, and no `ignores` pattern of the fragment may match
(spec sections 4.1 and 6). -/
def appliesTo (fr : ConfigFragment) (f : String) : Bool :=
  (match fr.files with
   | none => true
   | some pats => pats.any (fun p => matchesGlob p f))
  && !(match fr.ignores with
      | none => false
      | some pats => pats.any (fun p => matchesGlob p f))

/-- A fragment whose only key is `ignores`. -/
def isIgnoresOnly (fr : ConfigFragment) : Bool :=
  fr.ignores.isSome && fr.files.isNone && fr.languageOptions.isNone
    && fr.plugins.isEmpty && fr.rules.isEmpty

/-- Modelled from the spec: a file is excluded from all evaluation when
some fragment of the plan whose only key is `ignores` has a pattern
matching it, regardless of that fragment's position (spec section 3,
invariant clause). -/
def globallyIgnored (plan : List ConfigFragment) (f : String) : Bool :=
  plan.any (fun fr =>
    isIgnoresOnly fr && (fr.ignores.getD []).any (fun p => matchesGlob p f))

/-- One merge step of the engine for one rule name: a later applicable
fragment's binding for the rule overrides the accumulated one. -/
def stepRule (f r : String) (acc : Option Severity) (fr : ConfigFragment) :
    Option Severity :=
  if appliesTo fr f then
    match lookupRule fr r with
    | some v => some v
    | none => acc
  else acc

/-- Modelled from the spec: the engine's effective severity of a rule on a
file — none when the file is globally ignored, otherwise the rules maps of
the fragments scoping the file merged in plan order, later entries
overriding earlier entries keyed by rule name (spec section 6). -/
def effectiveSeverity (plan : List ConfigFragment) (f r : String) :
    Option Severity :=
  if globallyIgnored plan f then none
  else plan.foldl (stepRule f r) none

/-- One merge step of the engine for language options: a later applicable
fragment that binds `languageOptions` overrides the accumulated binding. -/
def stepLang (f : String) (acc : Option LanguageOptions)
    (fr : ConfigFragment) : Option LanguageOptions :=
  if appliesTo fr f then
    match fr.languageOptions with
    | some lo => some lo
    | none => acc
  else acc

/-- Modelled from the spec: the engine's effective language options for a
file — none when the file is globally ignored, otherwise the last
applicable fragment's `languageOptions` binding (spec section 6, bound
parser clause). -/
def effectiveLanguageOptions (plan : List ConfigFragment) (f : String) :
    Option LanguageOptions :=
  if globallyIgnored plan f then none
  else plan.foldl (stepLang f) none

/-- Modelled from the spec: `js.configs.recommended` from `@eslint/js` — a
single base fragment of core (non-namespaced) rules with no scope keys.
The package itself is not part of this repository. -/
def jsRecommended : ConfigFragment :=
  { rules := [("no-unused-vars", .error), ("no-undef", .error)] }

/-- Modelled from the spec: `typescript.configs.recommended.rules` from
`@typescript-eslint/eslint-plugin` — rule entries namespaced under
`@typescript-eslint` together with core rule toggles.  The package itself
is not part of this repository. -/
def typescriptRecommendedRules : List (String × Severity) :=
  [("no-unused-vars", .off),
   ("@typescript-eslint/no-unused-vars", .error),
   ("@typescript-eslint/no-explicit-any", .error)]

/-- The second fragment of `eslint.config.js`: TypeScript parser binding
scoped to script files, declaring the `@typescript-eslint` plugin and
spreading its recommended rules. -/
def typescriptFragment : ConfigFragment :=
  { files := some ["**/*.\x7bjs,mjs,cjs,ts,jsx,tsx\x7d"],
    languageOptions := some
      { parser := "@typescript-eslint/parser",
        ecmaVersion := "latest",
        sourceType := "module" },
    plugins := ["@typescript-eslint"],
    rules := typescriptRecommendedRules }

/-- Modelled from the spec: `astro.configs.recommended` from
`eslint-plugin-astro` — a plugin-provided array of fragments, the first of
which declares the `astro` plugin and later ones of which set `astro`
rules scoped to astro files.  The package itself is not part of this
repository.  Its first fragment declares the `astro` plugin. -/
def astroBaseFragment : ConfigFragment :=
  { plugins := ["astro"] }

/-- Modelled from the spec: the astro recommended rules fragment of the
plugin-provided array, scoped to astro files. -/
def astroRecommendedRulesFragment : ConfigFragment :=
  { files := some ["**/*.astro"],
    rules := [("astro/no-conflict-set-directives", .error),
              ("astro/no-deprecated-astro-canonicalurl", .error)] }

/-- Modelled from the spec: a further fragment of the plugin-provided
array, scoped to astro files. -/
def astroCompileFragment : ConfigFragment :=
  { files := some ["**/*.astro"],
    rules := [("astro/valid-compile", .error)] }

def astroRecommended : List ConfigFragment :=
  [astroBaseFragment, astroRecommendedRulesFragment, astroCompileFragment]

/-- The fourth item of `eslint.config.js`: locally authored astro rule
overrides scoped to astro files. -/
def astroRulesFragment : ConfigFragment :=
  { files := some ["**/*.astro"],
    rules := [("astro/no-conflict-set-directives", .error),
              ("astro/no-unused-define-vars-in-style", .error)] }

/-- The final item of `eslint.config.js`: the global ignore fragment. -/
def ignoresFragment : ConfigFragment :=
  { ignores := some ["dist/", "node_modules/", ".astro/"] }

/-- The default export of `src/eslint.config.js`: the literal ordered
sequence of fragments, with `astro.configs.recommended` spread in place. -/
def eslintConfig : List ConfigItem :=
  [.frag jsRecommended,
   .frag typescriptFragment,
   .arr astroRecommended,
   .frag astroRulesFragment,
   .frag ignoresFragment]

/-- The composed evaluation plan of this repository's configuration. -/
def eslintPlan : List ConfigFragment := flattenItems eslintConfig

/-- An ignores-only fragment built from a pattern set. -/
def mkIgnores (pats : List String) : ConfigFragment :=
  { ignores := some pats }

/-- All plugin names declared by the `plugins` maps of a sequence of
fragments, in order. -/
def declaredPlugins : List ConfigFragment → List String
  | [] => []
  | fr :: rest => fr.plugins ++ declaredPlugins rest

/-- A flat plan contains an unresolved plugin reference: some fragment's
`rules` map names a plugin that no `plugins` map earlier in, or at, that
fragment declares. -/
def UnresolvedRef (plan : List ConfigFragment) : Prop :=
  ∃ P fr Q r v p, plan = P ++ fr :: Q ∧ (r, v) ∈ fr.rules ∧
    pluginOf r = some p ∧ p ∉ declaredPlugins (P ++ [fr])

/-- A flat plan contains an unresolved plugin reference, relative to a
list of plugin names already declared in front of it. -/
def UnresolvedFrom (declared : List String) (plan : List ConfigFragment) : Prop :=
  ∃ P fr Q r v p, plan = P ++ fr :: Q ∧ (r, v) ∈ fr.rules ∧
    pluginOf r = some p ∧ p ∉ declared ++ declaredPlugins (P ++ [fr])

/-- The configuration sequence with the TypeScript parser fragment
removed, used to state that the parser fragment leaves astro files
untouched. -/
def eslintConfigNoTs : List ConfigItem :=
  [.frag jsRecommended,
   .arr astroRecommended,
   .frag astroRulesFragment,
   .frag ignoresFragment]

/-- An unscoped fragment setting one core rule to warn, as in the spec's
example scenario. -/
def coreWarnFragment : ConfigFragment :=
  { rules := [("no-unused-vars", .warn)] }

/-- A fragment scoped to TypeScript files setting the same core rule to
error, as in the spec's example scenario. -/
def tsScopedFragment : ConfigFragment :=
  { files := some ["**/*.ts"], rules := [("no-unused-vars", .error)] }

/-- A fragment referencing an `astro` rule with no `astro` plugin
declared anywhere: a configuration that must be rejected. -/
def orphanAstroFragment : ConfigFragment :=
  { rules := [("astro/no-conflict-set-directives", .error)] }

lemma dfsOrder_cons (it : ConfigItem) (rest : List ConfigItem) :
    dfsOrder (it :: rest) = itemFrags it ++ dfsOrder rest := rfl

lemma flattenItems_eq_dfsOrder (items : List ConfigItem) :
    flattenItems items = dfsOrder items := by
  induction items with
  | nil => rfl
  | cons it rest ih =>
    cases it with
    | frag f => simp [flattenItems, dfsOrder_cons, itemFrags, ih]
    | arr fs => simp [flattenItems, dfsOrder_cons, itemFrags, ih]

lemma compose_eq_ok {items : List ConfigItem} {plan : List ConfigFragment}
    (h : compose items = Except.ok plan) :
    plan = flattenItems items ∧ checkPlan (flattenItems items) = none := by
  unfold compose at h
  cases hc : checkPlan (flattenItems items) with
  | some e => rw [hc] at h; exact absurd h (by simp)
  | none => rw [hc] at h; simp at h; exact ⟨h.symm, rfl⟩

lemma count_flattenItems (items : List ConfigItem) (fr : ConfigFragment) :
    (flattenItems items).count fr
      = (items.map (fun it => (itemFrags it).count fr)).sum := by
  induction items with
  | nil => rfl
  | cons it rest ih =>
    cases it with
    | frag f =>
      simp [flattenItems, itemFrags, List.count_cons, ih]
      exact Nat.add_comm _ _
    | arr fs => simp [flattenItems, itemFrags, List.count_append, ih]

lemma mem_flattenItems {fr : ConfigFragment} {items : List ConfigItem}
    (h : fr ∈ flattenItems items) :
    ∃ it, it ∈ items ∧ fr ∈ itemFrags it := by
  induction items with
  | nil => simp [flattenItems] at h
  | cons it rest ih =>
    cases it with
    | frag f =>
      rcases List.mem_cons.mp h with h1 | h2
      · exact ⟨ConfigItem.frag f, by simp, by simp [itemFrags, h1]⟩
      · obtain ⟨it, hit, hfr⟩ := ih h2
        exact ⟨it, by simp [hit], hfr⟩
    | arr fs =>
      rcases List.mem_append.mp h with h1 | h2
      · exact ⟨ConfigItem.arr fs, by simp, by simp [itemFrags, h1]⟩
      · obtain ⟨it, hit, hfr⟩ := ih h2
        exact ⟨it, by simp [hit], hfr⟩

lemma flattenItems_map_frag (plan : List ConfigFragment) :
    flattenItems (plan.map ConfigItem.frag) = plan := by
  induction plan with
  | nil => rfl
  | cons fr rest ih => simp [flattenItems, ih]

lemma foldl_stepRule_const (f r : String) (R : List ConfigFragment)
    (acc : Option Severity)
    (hR : ∀ fr ∈ R, appliesTo fr f = true → lookupRule fr r = none) :
    R.foldl (stepRule f r) acc = acc := by
  induction R generalizing acc with
  | nil => rfl
  | cons fr R ih =>
    have hstep : stepRule f r acc fr = acc := by
      cases happ : appliesTo fr f with
      | true => simp [stepRule, happ, hR fr (by simp) happ]
      | false => simp [stepRule, happ]
    rw [List.foldl_cons, hstep]
    exact ih acc (fun fr h => hR fr (by simp [h]))


/-- C1: for every input sequence of configuration fragments, including
nested plugin-provided fragment arrays, `compose` returns a flat sequence
whose relative order equals the order of elements as encountered by a
left-to-right, depth-first flatten of the input, with no reordering,
deduplication, or rule-conflict resolution performed by the composer:
every fragment occurs in the output exactly as often as in the input. -/
theorem compose_flattens (items : List ConfigItem) (plan : List ConfigFragment)
    (h : compose items = Except.ok plan) :
    plan = dfsOrder items ∧
      ∀ fr, plan.count fr = (items.map (fun it => (itemFrags it).count fr)).sum := by
  obtain ⟨hp, -⟩ := compose_eq_ok h
  subst hp
  exact ⟨flattenItems_eq_dfsOrder items, fun fr => count_flattenItems items fr⟩

/-- Witness for C1 at a concrete nested input. -/
theorem compose_flattens_witness :
    [coreWarnFragment, tsScopedFragment, coreWarnFragment]
        = dfsOrder [ConfigItem.frag coreWarnFragment,
                    ConfigItem.arr [tsScopedFragment, coreWarnFragment]] ∧
      ([coreWarnFragment, tsScopedFragment, coreWarnFragment]).count coreWarnFragment
        = (([ConfigItem.frag coreWarnFragment,
             ConfigItem.arr [tsScopedFragment, coreWarnFragment]]).map
            (fun it => (itemFrags it).count coreWarnFragment)).sum := by
  have h := compose_flattens
    [ConfigItem.frag coreWarnFragment,
     ConfigItem.arr [tsScopedFragment, coreWarnFragment]]
    [coreWarnFragment, tsScopedFragment, coreWarnFragment] rfl
  exact ⟨h.1, h.2 coreWarnFragment⟩

/-- C2: for a file f and fragments A (earlier in the plan) and B (later),
both scoping f and both defining rule r, with B the last fragment scoping
f that defines r, the engine effective severity of r on f is B value and
not A value: later entries override earlier entries keyed by rule name. -/
theorem effectiveSeverity_override
    (P Q R : List ConfigFragment) (A B : ConfigFragment)
    (f r : String) (vA vB : Severity)
    (_hA : appliesTo A f = true) (_hAr : lookupRule A r = some vA)
    (hB : appliesTo B f = true) (hBr : lookupRule B r = some vB)
    (hR : ∀ fr ∈ R, appliesTo fr f = true → lookupRule fr r = none)
    (hig : globallyIgnored (P ++ A :: Q ++ B :: R) f = false) :
    effectiveSeverity (P ++ A :: Q ++ B :: R) f r = some vB ∧
      (vA ≠ vB → effectiveSeverity (P ++ A :: Q ++ B :: R) f r ≠ some vA) := by
  have hmain : effectiveSeverity (P ++ A :: Q ++ B :: R) f r = some vB := by
    unfold effectiveSeverity
    simp only [hig, Bool.false_eq_true, if_false]
    have hsplit : P ++ A :: Q ++ B :: R = (P ++ A :: Q) ++ B :: R := by simp
    rw [hsplit, List.foldl_append, List.foldl_cons]
    have hstep : stepRule f r ((P ++ A :: Q).foldl (stepRule f r) none) B
        = some vB := by
      simp [stepRule, hB, hBr]
    rw [hstep]
    exact foldl_stepRule_const f r R (some vB) hR
  refine ⟨hmain, fun hne hcon => ?_⟩
  rw [hmain] at hcon
  exact hne (Option.some.inj hcon).symm

/-- Witness for C2 at the spec example fragments and file a.ts. -/
theorem effectiveSeverity_override_witness :
    effectiveSeverity ([] ++ coreWarnFragment :: [] ++ tsScopedFragment :: [])
        "a.ts" "no-unused-vars" = some Severity.error ∧
      (Severity.warn ≠ Severity.error →
        effectiveSeverity ([] ++ coreWarnFragment :: [] ++ tsScopedFragment :: [])
          "a.ts" "no-unused-vars" ≠ some Severity.warn) :=
  effectiveSeverity_override [] [] [] coreWarnFragment tsScopedFragment
    "a.ts" "no-unused-vars" Severity.warn Severity.error
    (by decide) (by decide) (by decide) (by decide)
    (fun fr h => absurd h (by simp)) (by decide)

/-- C3: a fragment whose only key is an ignores pattern set excludes every
file matching one of its patterns from all evaluation, regardless of the
fragment position in the composed sequence. -/
theorem ignoresOnly_global (P Q : List ConfigFragment) (pats : List String)
    (f : String)
    (hmatch : pats.any (fun p => matchesGlob p f) = true) :
    globallyIgnored (P ++ mkIgnores pats :: Q) f = true ∧
      (∀ r, effectiveSeverity (P ++ mkIgnores pats :: Q) f r = none) ∧
      effectiveLanguageOptions (P ++ mkIgnores pats :: Q) f = none := by
  have hg : globallyIgnored (P ++ mkIgnores pats :: Q) f = true := by
    unfold globallyIgnored
    rw [List.any_eq_true]
    refine ⟨mkIgnores pats, by simp, ?_⟩
    simp [isIgnoresOnly, mkIgnores, hmatch]
  exact ⟨hg, fun r => by simp [effectiveSeverity, hg],
    by simp [effectiveLanguageOptions, hg]⟩

/-- Witness for C3: a file under dist is excluded by the repository's
ignore pattern set placed after another fragment. -/
theorem ignoresOnly_global_witness :
    globallyIgnored ([coreWarnFragment]
        ++ mkIgnores ["dist/", "node_modules/", ".astro/"] :: []) "dist/bundle.js"
      = true ∧
      (∀ r, effectiveSeverity ([coreWarnFragment]
          ++ mkIgnores ["dist/", "node_modules/", ".astro/"] :: [])
          "dist/bundle.js" r = none) ∧
      effectiveLanguageOptions ([coreWarnFragment]
          ++ mkIgnores ["dist/", "node_modules/", ".astro/"] :: [])
          "dist/bundle.js" = none :=
  ignoresOnly_global [coreWarnFragment] []
    ["dist/", "node_modules/", ".astro/"] "dist/bundle.js" (by decide)

/-- C5: compose is idempotent on flat input: composing an already-flat
evaluation plan (one with no nested fragment arrays) yields the identical
sequence, element for element and in the same order. -/
theorem compose_flat_noop (plan : List ConfigFragment)
    (h : checkPlan plan = none) :
    compose (plan.map ConfigItem.frag) = Except.ok plan := by
  unfold compose
  rw [flattenItems_map_frag, h]

/-- Witness for C5 at a concrete flat two-fragment plan. -/
theorem compose_flat_noop_witness :
    compose ([coreWarnFragment, tsScopedFragment].map ConfigItem.frag)
      = Except.ok [coreWarnFragment, tsScopedFragment] :=
  compose_flat_noop [coreWarnFragment, tsScopedFragment] rfl

/-- C6: compose is a pure, deterministic function of its input: two
applications to the same input are equal, a failing input fails with the
identical error on retry, and the output plan contains only fragments of
the input, unmutated. -/
theorem compose_deterministic (items : List ConfigItem) :
    compose items = compose items ∧
      (∀ plan, compose items = Except.ok plan →
        ∀ fr ∈ plan, ∃ it, it ∈ items ∧ fr ∈ itemFrags it) ∧
      (∀ e, compose items = Except.error e → compose items = Except.error e) := by
  refine ⟨rfl, fun plan h fr hfr => ?_, fun e h => h⟩
  obtain ⟨hp, -⟩ := compose_eq_ok h
  subst hp
  exact mem_flattenItems hfr

/-- Witness for C6: the first fragment of the repository's composed plan
is an unmutated input fragment. -/
theorem compose_deterministic_witness :
    ∃ it, it ∈ eslintConfig ∧ jsRecommended ∈ itemFrags it :=
  (compose_deterministic eslintConfig).2.1 eslintPlan rfl jsRecommended
    (by decide)

/-- C7: composing the spec example two-fragment sequence and evaluating
rule no-unused-vars yields severity error on a.ts and severity warn on
a.js: the unscoped fragment applies to all files, the scoped later
fragment overrides only where its glob matches. -/
theorem exampleScenario :
    compose [ConfigItem.frag coreWarnFragment, ConfigItem.frag tsScopedFragment]
        = Except.ok [coreWarnFragment, tsScopedFragment] ∧
      effectiveSeverity [coreWarnFragment, tsScopedFragment]
        "a.ts" "no-unused-vars" = some Severity.error ∧
      effectiveSeverity [coreWarnFragment, tsScopedFragment]
        "a.js" "no-unused-vars" = some Severity.warn :=
  ⟨rfl, by decide, by decide⟩

/-- C8: composing a plugin-provided fragment array of three fragments
followed by one locally authored fragment flattens the array in place
into a four-fragment plan preserving internal order. -/
theorem compose_splices (f1 f2 f3 loc : ConfigFragment)
    (h : checkPlan [f1, f2, f3, loc] = none) :
    compose [ConfigItem.arr [f1, f2, f3], ConfigItem.frag loc]
        = Except.ok [f1, f2, f3, loc] ∧
      [f1, f2, f3, loc].length = 4 := by
  constructor
  · unfold compose
    have hf : flattenItems [ConfigItem.arr [f1, f2, f3], ConfigItem.frag loc]
        = [f1, f2, f3, loc] := rfl
    rw [hf, h]
  · rfl

/-- Witness for C8: the astro recommended array of this repository spliced
before the local astro rules fragment. -/
theorem compose_splices_witness :
    compose [ConfigItem.arr
        [astroBaseFragment, astroRecommendedRulesFragment, astroCompileFragment],
        ConfigItem.frag astroRulesFragment]
        = Except.ok [astroBaseFragment, astroRecommendedRulesFragment,
                     astroCompileFragment, astroRulesFragment] ∧
      [astroBaseFragment, astroRecommendedRulesFragment,
       astroCompileFragment, astroRulesFragment].length = 4 :=
  compose_splices astroBaseFragment astroRecommendedRulesFragment
    astroCompileFragment astroRulesFragment rfl

/-- C9: in the exported configuration every namespaced rule has its plugin
declared at or before the fragment using it, so composing this specific
configuration never raises a ConfigurationError: the check passes and
compose returns the flat plan. -/
theorem eslintConfig_composes :
    compose eslintConfig = Except.ok eslintPlan ∧ checkPlan eslintPlan = none :=
  ⟨rfl, rfl⟩



lemma declaredPlugins_append (l1 l2 : List ConfigFragment) :
    declaredPlugins (l1 ++ l2) = declaredPlugins l1 ++ declaredPlugins l2 := by
  induction l1 with
  | nil => rfl
  | cons fr rest ih => simp [declaredPlugins, ih]

lemma checkPlanAux_some_iff (plan : List ConfigFragment) :
    ∀ declared i, (∃ e, checkPlanAux declared i plan = some e)
      ↔ UnresolvedFrom declared plan := by
  induction plan with
  | nil =>
    intro declared i
    constructor
    · rintro ⟨e, he⟩
      exact absurd he (by simp [checkPlanAux])
    · rintro ⟨P, fr, Q, r, v, p, hP, -⟩
      cases P <;> simp at hP
  | cons fr0 rest ih =>
    intro declared i
    unfold checkPlanAux
    cases hf : fr0.rules.find? (badRule (declared ++ fr0.plugins)) with
    | some e =>
      simp only [hf]
      constructor
      · rintro -
        have hmem := List.mem_of_find?_eq_some hf
        have hpred := List.find?_some hf
        unfold badRule at hpred
        cases hpo : pluginOf e.1 with
        | none => rw [hpo] at hpred; exact absurd hpred (by simp)
        | some p =>
          rw [hpo] at hpred
          refine ⟨[], fr0, rest, e.1, e.2, p, rfl, by simpa using hmem, hpo, ?_⟩
          simp only [List.nil_append, declaredPlugins, List.append_nil]
          simpa using hpred
      · rintro -
        exact ⟨⟨i, e.1⟩, rfl⟩
    | none =>
      simp only [hf]
      rw [ih (declared ++ fr0.plugins) (i + 1)]
      constructor
      · rintro ⟨P, fr, Q, r, v, p, hP, hmem, hpo, hnot⟩
        refine ⟨fr0 :: P, fr, Q, r, v, p, by simp [hP], hmem, hpo, ?_⟩
        simpa [declaredPlugins, List.append_assoc] using hnot
      · rintro ⟨P, fr, Q, r, v, p, hP, hmem, hpo, hnot⟩
        cases P with
        | nil =>
          simp only [List.nil_append, List.cons.injEq] at hP
          obtain ⟨hfr, hQ⟩ := hP
          subst hfr
          have hnone := List.find?_eq_none.mp hf (r, v) hmem
          unfold badRule at hnone
          rw [hpo] at hnone
          simp only [List.nil_append, declaredPlugins, List.append_nil] at hnot
          simp only [List.mem_append] at hnot
          push_neg at hnot
          simp at hnone
          exact absurd (hnone hnot.1) hnot.2
        | cons fr1 P1 =>
          simp only [List.cons_append, List.cons.injEq] at hP
          obtain ⟨h1, h2⟩ := hP
          subst h1
          refine ⟨P1, fr, Q, r, v, p, h2, hmem, hpo, ?_⟩
          simpa [declaredPlugins, List.append_assoc] using hnot

lemma checkPlan_some_iff (plan : List ConfigFragment) :
    (∃ e, checkPlan plan = some e) ↔ UnresolvedRef plan := by
  refine Iff.trans (checkPlanAux_some_iff plan [] 0) ?_
  unfold UnresolvedFrom UnresolvedRef
  simp

/-- C4: compose fails with a ConfigurationError if and only if some
fragment's rules map names a plugin that is not declared by a plugins map
earlier in, or at, the same fragment of the flattened sequence; the error
is surfaced to the caller, so no plan is produced and no file is ever
evaluated against one. -/
theorem compose_error_iff (items : List ConfigItem) :
    (∃ e, compose items = Except.error e)
      ↔ UnresolvedRef (flattenItems items) := by
  rw [← checkPlan_some_iff]
  unfold compose
  cases hc : checkPlan (flattenItems items) with
  | some e => simp [hc]
  | none => simp [hc]

/-- Witness for C4: a configuration whose only fragment references an
astro rule without declaring the astro plugin is rejected, and the
resolved unresolved-reference fact it yields. -/
theorem compose_error_iff_witness :
    UnresolvedRef (flattenItems [ConfigItem.frag orphanAstroFragment]) :=
  (compose_error_iff [ConfigItem.frag orphanAstroFragment]).mp
    ⟨⟨0, "astro/no-conflict-set-directives"⟩, rfl⟩


lemma isSuffixOf_excl {f s t : List Char}
    (hs : List.isSuffixOf s f = true)
    (h1 : List.isSuffixOf s t = false) (h2 : List.isSuffixOf t s = false) :
    List.isSuffixOf t f = false := by
  by_contra hc
  rw [Bool.not_eq_false] at hc
  have hs2 : s <:+ f := by simpa using hs
  have hc2 : t <:+ f := by simpa using hc
  rcases List.suffix_or_suffix_of_suffix hs2 hc2 with h | h
  · rw [(by simpa using h : List.isSuffixOf s t = true)] at h1
    exact absurd h1 (by simp)
  · rw [(by simpa using h : List.isSuffixOf t s = true)] at h2
    exact absurd h2 (by simp)

lemma expand_ts_pattern :
    expandBraces (String.data "**/*.\x7bjs,mjs,cjs,ts,jsx,tsx\x7d")
      = [String.data "**/*.js", String.data "**/*.mjs", String.data "**/*.cjs",
         String.data "**/*.ts", String.data "**/*.jsx", String.data "**/*.tsx"] := by
  decide

lemma matchesOne_js (x : List Char) :
    matchesOne (String.data "**/*.js") x = List.isSuffixOf (String.data ".js") x := rfl

lemma matchesOne_mjs (x : List Char) :
    matchesOne (String.data "**/*.mjs") x = List.isSuffixOf (String.data ".mjs") x := rfl

lemma matchesOne_cjs (x : List Char) :
    matchesOne (String.data "**/*.cjs") x = List.isSuffixOf (String.data ".cjs") x := rfl

lemma matchesOne_ts (x : List Char) :
    matchesOne (String.data "**/*.ts") x = List.isSuffixOf (String.data ".ts") x := rfl

lemma matchesOne_jsx (x : List Char) :
    matchesOne (String.data "**/*.jsx") x = List.isSuffixOf (String.data ".jsx") x := rfl

lemma matchesOne_tsx (x : List Char) :
    matchesOne (String.data "**/*.tsx") x = List.isSuffixOf (String.data ".tsx") x := rfl

lemma ts_not_applies (f : String)
    (h : matchesGlob "**/*.astro" f = true) :
    appliesTo typescriptFragment f = false := by
  have hs : List.isSuffixOf (String.data ".astro") f.data = true := by
    have hred : matchesGlob "**/*.astro" f
        = (List.isSuffixOf (String.data ".astro") f.data || false) := rfl
    rw [hred] at h
    simpa using h
  have e1 : List.isSuffixOf (String.data ".js") f.data = false :=
    isSuffixOf_excl hs (by decide) (by decide)
  have e2 : List.isSuffixOf (String.data ".mjs") f.data = false :=
    isSuffixOf_excl hs (by decide) (by decide)
  have e3 : List.isSuffixOf (String.data ".cjs") f.data = false :=
    isSuffixOf_excl hs (by decide) (by decide)
  have e4 : List.isSuffixOf (String.data ".ts") f.data = false :=
    isSuffixOf_excl hs (by decide) (by decide)
  have e5 : List.isSuffixOf (String.data ".jsx") f.data = false :=
    isSuffixOf_excl hs (by decide) (by decide)
  have e6 : List.isSuffixOf (String.data ".tsx") f.data = false :=
    isSuffixOf_excl hs (by decide) (by decide)
  have hred2 : appliesTo typescriptFragment f
      = ((matchesGlob "**/*.\x7bjs,mjs,cjs,ts,jsx,tsx\x7d" f || false) && true) := rfl
  rw [hred2]
  rw [show matchesGlob "**/*.\x7bjs,mjs,cjs,ts,jsx,tsx\x7d" f
      = (expandBraces (String.data "**/*.\x7bjs,mjs,cjs,ts,jsx,tsx\x7d")).any
          (fun p => matchesOne p f.data) from rfl]
  rw [expand_ts_pattern]
  simp only [List.any_cons, List.any_nil]
  rw [matchesOne_js f.data, matchesOne_mjs f.data, matchesOne_cjs f.data,
    matchesOne_ts f.data, matchesOne_jsx f.data, matchesOne_tsx f.data]
  simp [e1, e2, e3, e4, e5, e6]

lemma stepLang_none (f : String) (fr : ConfigFragment)
    (hlo : fr.languageOptions = none) (acc : Option LanguageOptions) :
    stepLang f acc fr = acc := by
  simp [stepLang, hlo]

/-- C10: the TypeScript parser fragment scopes itself to script files, a
glob set matching no astro file; for every astro file the fragment does
not apply, the effective language options of the composed plan are the
same as for the plan with that fragment removed, and no fragment binds
language options for such a file at all. -/
theorem astro_frame (f : String) (h : matchesGlob "**/*.astro" f = true) :
    appliesTo typescriptFragment f = false ∧
      effectiveLanguageOptions eslintPlan f = none ∧
      effectiveLanguageOptions eslintPlan f
        = effectiveLanguageOptions (flattenItems eslintConfigNoTs) f := by
  have hts := ts_not_applies f h
  have hts2 : ∀ acc, stepLang f acc typescriptFragment = acc := by
    intro acc
    simp [stepLang, hts]
  have hplan : eslintPlan = [jsRecommended, typescriptFragment, astroBaseFragment,
      astroRecommendedRulesFragment, astroCompileFragment, astroRulesFragment,
      ignoresFragment] := rfl
  have hplan2 : flattenItems eslintConfigNoTs = [jsRecommended, astroBaseFragment,
      astroRecommendedRulesFragment, astroCompileFragment, astroRulesFragment,
      ignoresFragment] := rfl
  have hmain : effectiveLanguageOptions eslintPlan f = none := by
    unfold effectiveLanguageOptions
    cases hgi : globallyIgnored eslintPlan f with
    | true => simp
    | false =>
      simp only [Bool.false_eq_true, if_false]
      rw [hplan]
      simp only [List.foldl_cons, List.foldl_nil]
      rw [stepLang_none f jsRecommended rfl, hts2,
        stepLang_none f astroBaseFragment rfl,
        stepLang_none f astroRecommendedRulesFragment rfl,
        stepLang_none f astroCompileFragment rfl,
        stepLang_none f astroRulesFragment rfl,
        stepLang_none f ignoresFragment rfl]
  have hmain2 : effectiveLanguageOptions (flattenItems eslintConfigNoTs) f = none := by
    unfold effectiveLanguageOptions
    cases hgi : globallyIgnored (flattenItems eslintConfigNoTs) f with
    | true => simp
    | false =>
      simp only [Bool.false_eq_true, if_false]
      rw [hplan2]
      simp only [List.foldl_cons, List.foldl_nil]
      rw [stepLang_none f jsRecommended rfl,
        stepLang_none f astroBaseFragment rfl,
        stepLang_none f astroRecommendedRulesFragment rfl,
        stepLang_none f astroCompileFragment rfl,
        stepLang_none f astroRulesFragment rfl,
        stepLang_none f ignoresFragment rfl]
  exact ⟨hts, hmain, by rw [hmain, hmain2]⟩

/-- Witness for C10 at a concrete astro file path. -/
theorem astro_frame_witness :
    appliesTo typescriptFragment "src/pages/index.astro" = false ∧
      effectiveLanguageOptions eslintPlan "src/pages/index.astro" = none ∧
      effectiveLanguageOptions eslintPlan "src/pages/index.astro"
        = effectiveLanguageOptions (flattenItems eslintConfigNoTs)
            "src/pages/index.astro" :=
  astro_frame "src/pages/index.astro" (by decide)

end EslintConfig
